import Mathlib

set_option maxHeartbeats 1000000

/- Verification development for a small SysML-like text-to-tree pipeline:
a character-level tokenizer (`tokenize`) and a token-level recursive-descent
parser (`parse`).  The Lean definitions below are a shallow embedding of the
JavaScript source (class `SysMLTokenizer`, class `ASTNode`, class
`SysMLParser` in App.tsx):
 - the tokenizer scans a list of characters with an explicit cursor state;
 - JavaScript exceptions thrown by `expect` are modelled by an explicit
   error constructor threaded through every parse routine;
 - the parser loops that the source does not guarantee to terminate take an
   explicit fuel argument; exhausting the fuel at every fuel value models
   divergence of the source loop;
 - the numeric payload of a NUMBER token keeps the raw scanned text (the
   source applies JavaScript parseFloat to it; no claim depends on the
   floating-point value);
 - the JavaScript whitespace class \s is modelled by its ASCII part, which
   is exact on every input considered by the claims. -/

inductive TokType where
  | keyword
  | identifier
  | string
  | number
  | operator
  | punctuation
  | comment
  | whitespace
  | eof
deriving DecidableEq, Repr

/-- Token payload: JavaScript stores a string for textual kinds, a number
for NUMBER tokens and null for EOF.  `vNum` keeps the raw scanned text. -/
inductive TokValue where
  | vStr (s : String)
  | vNum (raw : String)
  | vNull
deriving DecidableEq, Repr

/-- JavaScript strict equality `value === str` between a token payload and a
string literal: true only when the payload is a string equal to it. -/
def TokValue.eqStr : TokValue → String → Bool
  | .vStr s, x => s == x
  | _, _ => false

structure Token where
  type : TokType
  value : TokValue
  line : Nat
  col : Nat
deriving DecidableEq, Repr

/-- The fixed keyword set of the source (const KEYWORDS). -/
def KEYWORDS : List String :=
  ["package", "part", "attribute", "port", "connection", "interface",
   "block", "requirement", "constraint", "activity", "state", "transition",
   "use", "case", "actor", "subject", "stakeholder", "concern",
   "view", "viewpoint", "rendering", "expose", "import", "private",
   "protected", "public", "abstract", "readonly", "derived", "end",
   "redefines", "specializes", "conjugates"]

/-- Tokenizer cursor state: the input text and the fields position, line,
column of class SysMLTokenizer. -/
structure LexState where
  text : List Char
  pos : Nat
  line : Nat
  col : Nat
deriving Repr

/-- SysMLTokenizer.current(): the character at the cursor, null past end. -/
def cur (s : LexState) : Option Char :=
  s.text[s.pos]?

/-- SysMLTokenizer.peek(offset): the character `off` places ahead. -/
def peek (s : LexState) (off : Nat) : Option Char :=
  s.text[s.pos + off]?

/-- SysMLTokenizer.advance(): newline bumps the line and resets the column
to 1; every other character bumps the column. -/
def advance (s : LexState) : LexState :=
  if cur s = some '\n' then
    { s with line := s.line + 1, col := 1, pos := s.pos + 1 }
  else
    { s with col := s.col + 1, pos := s.pos + 1 }

theorem advance_text (s : LexState) : (advance s).text = s.text := by
  unfold advance; split <;> rfl

theorem advance_pos (s : LexState) : (advance s).pos = s.pos + 1 := by
  unfold advance; split <;> rfl

theorem cur_some_lt {s : LexState} {c : Char} (h : cur s = some c) :
    s.pos < s.text.length := by
  by_contra hge
  rw [cur, List.getElem?_eq_none (by omega)] at h
  exact Option.noConfusion h

/-- ASCII part of the JavaScript \s character class. -/
def isWsChar (c : Char) : Bool :=
  c == ' ' || c == '\t' || c == '\n' || c == '\r' || c == '\x0b' || c == '\x0c'

def isDigitChar (c : Char) : Bool :=
  '0' ≤ c && c ≤ '9'

/-- The character class [a-zA-Z_] starting an identifier. -/
def isAlphaUnd (c : Char) : Bool :=
  ('a' ≤ c && c ≤ 'z') || ('A' ≤ c && c ≤ 'Z') || c == '_'

/-- The character class [a-zA-Z0-9_] continuing an identifier. -/
def isIdentChar (c : Char) : Bool :=
  isAlphaUnd c || isDigitChar c

def isPunctChar (c : Char) : Bool :=
  c == '\x7b' || c == '\x7d' || c == '(' || c == ')' || c == ';' ||
    c == ':' || c == ',' || c == '.'

def isOpChar (c : Char) : Bool :=
  c == '=' || c == '<' || c == '>' || c == '!' || c == '+' || c == '-' ||
    c == '*' || c == '/'

/- Every scanning loop below recurses structurally on an explicit iteration
bound.  Each iteration of a source loop consumes at least one character and
every loop stops at end of input, so `s.text.length - s.pos` iterations
always suffice; the wrappers pass exactly that bound, which makes each
function total and computable by reduction while behaving exactly like the
source loop on every input. -/

/-- The loop of SysMLTokenizer.skipWhitespace(). -/
def skipWsAux : Nat → LexState → LexState
  | 0, s => s
  | n + 1, s =>
    match cur s with
    | some c => if isWsChar c then skipWsAux n (advance s) else s
    | none => s

/-- SysMLTokenizer.skipWhitespace(). -/
def skipWhitespace (s : LexState) : LexState :=
  skipWsAux (s.text.length - s.pos) s

/-- The scanning loop of SysMLTokenizer.readString(), after the opening
quote has been consumed: a backslash consumes the next character and appends
it verbatim; the loop stops at the closing quote or at end of input. -/
def readStrAux : Nat → Char → LexState → String × LexState
  | 0, _, s => ("", s)
  | n + 1, q, s =>
    match cur s with
    | none => ("", s)
    | some c =>
      if c = q then ("", s)
      else if c = '\\' then
        match cur (advance s) with
        | none => ("", advance s)
        | some d =>
          (d.toString ++ (readStrAux n q (advance (advance s))).1,
            (readStrAux n q (advance (advance s))).2)
      else
        (c.toString ++ (readStrAux n q (advance s)).1,
          (readStrAux n q (advance s)).2)

/-- The readString scanning loop started at the current state. -/
def readStringLoop (q : Char) (s : LexState) : String × LexState :=
  readStrAux (s.text.length - s.pos) q s

/-- SysMLTokenizer.readString(): consumes the opening quote, runs the scan
loop, and consumes the closing quote when it is present. -/
def readString (s : LexState) : String × LexState :=
  match cur s with
  | none => ("", s)
  | some q =>
    let s1 := (readStringLoop q (advance s)).2
    if cur s1 = some q then ((readStringLoop q (advance s)).1, advance s1)
    else ((readStringLoop q (advance s)).1, s1)

/-- The loop of SysMLTokenizer.readNumber(): greedily consumes digits and
dots. -/
def readNumAux : Nat → LexState → String × LexState
  | 0, s => ("", s)
  | n + 1, s =>
    match cur s with
    | some c =>
      if isDigitChar c || c == '.' then
        (c.toString ++ (readNumAux n (advance s)).1, (readNumAux n (advance s)).2)
      else ("", s)
    | none => ("", s)

/-- SysMLTokenizer.readNumber(), kept as the raw scanned text. -/
def readNumber (s : LexState) : String × LexState :=
  readNumAux (s.text.length - s.pos) s

/-- The loop of SysMLTokenizer.readIdentifier(). -/
def readIdentAux : Nat → LexState → String × LexState
  | 0, s => ("", s)
  | n + 1, s =>
    match cur s with
    | some c =>
      if isIdentChar c then
        (c.toString ++ (readIdentAux n (advance s)).1,
          (readIdentAux n (advance s)).2)
      else ("", s)
    | none => ("", s)

/-- SysMLTokenizer.readIdentifier(). -/
def readIdentifier (s : LexState) : String × LexState :=
  readIdentAux (s.text.length - s.pos) s

/-- The line-comment loop of SysMLTokenizer.readComment(): everything up to
but not including the next newline or end of input. -/
def readLineAux : Nat → LexState → String × LexState
  | 0, s => ("", s)
  | n + 1, s =>
    match cur s with
    | some c =>
      if c = '\n' then ("", s)
      else
        (c.toString ++ (readLineAux n (advance s)).1,
          (readLineAux n (advance s)).2)
    | none => ("", s)

/-- The line-comment loop started at the current state. -/
def readLineComment (s : LexState) : String × LexState :=
  readLineAux (s.text.length - s.pos) s

/-- The block-comment body loop of SysMLTokenizer.readComment(): everything
until the closing delimiter or end of input. -/
def readBlockAux : Nat → LexState → String × LexState
  | 0, s => ("", s)
  | n + 1, s =>
    match cur s with
    | some c =>
      if c = '*' ∧ peek s 1 = some '/' then ("", s)
      else
        (c.toString ++ (readBlockAux n (advance s)).1,
          (readBlockAux n (advance s)).2)
    | none => ("", s)

/-- The block-comment body loop started at the current state. -/
def readBlockBody (s : LexState) : String × LexState :=
  readBlockAux (s.text.length - s.pos) s

/-- SysMLTokenizer.readComment(): dispatches on the two comment forms; a
block comment consumes both delimiters and silently ends at end of input. -/
def readComment (s : LexState) : String × LexState :=
  if cur s = some '/' ∧ peek s 1 = some '/' then readLineComment s
  else if cur s = some '/' ∧ peek s 1 = some '*' then
    let s1 := advance (advance s)
    if cur (readBlockBody s1).2 = some '*' then
      ((readBlockBody s1).1, advance (advance (readBlockBody s1).2))
    else ((readBlockBody s1).1, (readBlockBody s1).2)
  else ("", s)

/-- The classification step of SysMLTokenizer.nextToken(), applied after
skipWhitespace: records the line and column before consuming the token and
dispatches on the next character. -/
def scanToken (s : LexState) : Token × LexState :=
  match cur s with
  | none => ({ type := .eof, value := .vNull, line := s.line, col := s.col }, s)
  | some c =>
    if c = '/' ∧ (peek s 1 = some '/' ∨ peek s 1 = some '*') then
      ({ type := .comment, value := .vStr (readComment s).1,
         line := s.line, col := s.col }, (readComment s).2)
    else if c = '"' ∨ c = '\'' then
      ({ type := .string, value := .vStr (readString s).1,
         line := s.line, col := s.col }, (readString s).2)
    else if isDigitChar c then
      ({ type := .number, value := .vNum (readNumber s).1,
         line := s.line, col := s.col }, (readNumber s).2)
    else if isAlphaUnd c then
      ({ type := if KEYWORDS.contains (readIdentifier s).1 then .keyword
                 else .identifier,
         value := .vStr (readIdentifier s).1,
         line := s.line, col := s.col }, (readIdentifier s).2)
    else if isPunctChar c then
      ({ type := .punctuation, value := .vStr c.toString,
         line := s.line, col := s.col }, advance s)
    else if isOpChar c then
      ({ type := .operator, value := .vStr c.toString,
         line := s.line, col := s.col }, advance s)
    else
      ({ type := .identifier, value := .vStr c.toString,
         line := s.line, col := s.col }, advance s)

/-- SysMLTokenizer.nextToken(): skip whitespace, then classify. -/
def nextToken (s0 : LexState) : Token × LexState :=
  scanToken (skipWhitespace s0)

/-- The do-while loop of SysMLTokenizer.tokenize(), with explicit fuel: it
appends every non-whitespace token and stops after the first EOF token.
`tokenize` supplies fuel larger than the input length; the theorem for the
termination claim shows that this fuel always reaches the EOF token. -/
def tokenizeAux (fuel : Nat) (s : LexState) : List Token :=
  match fuel with
  | 0 => []
  | fuel + 1 =>
    let t := (nextToken s).1
    let rest :=
      if t.type = TokType.eof then []
      else tokenizeAux fuel (nextToken s).2
    if t.type = TokType.whitespace then rest else t :: rest

/-- SysMLTokenizer.tokenize() on an input string, starting at line 1,
column 1. -/
def tokenize (input : String) : List Token :=
  tokenizeAux (input.data.length + 1) { text := input.data, pos := 0, line := 1, col := 1 }

/-- AST node of class ASTNode: a type tag, a property map modelled as an
association list in insertion order, and an ordered child list. -/
inductive ASTNode where
  | node (type : String) (props : List (String × TokValue)) (children : List ASTNode)

def ASTNode.type : ASTNode → String
  | .node t _ _ => t

def ASTNode.props : ASTNode → List (String × TokValue)
  | .node _ p _ => p

def ASTNode.children : ASTNode → List ASTNode
  | .node _ _ c => c

/-- Reading `properties[key]` of a node: none models an absent key
(JavaScript undefined). -/
def lookupProp (key : String) (n : ASTNode) : Option TokValue :=
  n.props.lookup key

/-- Outcome of a parse routine: a value together with the new cursor
position, a thrown structural parse failure, or fuel exhaustion (the loop of
the source did not finish within the given fuel). -/
inductive PRes (α : Type) where
  | ok (val : α) (pos : Nat)
  | err (msg : String)
  | out

/-- SysMLParser.current(): the token at the cursor, null past the end. -/
def curTok (tk : List Token) (pos : Nat) : Option Token :=
  tk[pos]?

/-- The optional-chaining test `this.current()?.value === v`. -/
def curValIs (tk : List Token) (pos : Nat) (v : String) : Bool :=
  match curTok tk pos with
  | some t => t.value.eqStr v
  | none => false

/-- The optional-chaining test `this.current()?.type === ty`. -/
def curTypeIs (tk : List Token) (pos : Nat) (ty : TokType) : Bool :=
  match curTok tk pos with
  | some t => t.type == ty
  | none => false

/-- The printable name of a token type (the TokenType string constants). -/
def tokTypeName : TokType → String
  | .keyword => "keyword"
  | .identifier => "identifier"
  | .string => "string"
  | .number => "number"
  | .operator => "operator"
  | .punctuation => "punctuation"
  | .comment => "comment"
  | .whitespace => "whitespace"
  | .eof => "eof"

/-- The text of a token payload inside an error message. -/
def tokValText : TokValue → String
  | .vStr s => s
  | .vNum raw => raw
  | .vNull => "null"

/-- The message carried by a structural parse failure of expect, naming the
expected token type, the optional expected value, and the actual token. -/
def expectMsg (ty : TokType) (v : Option String) (actual : Option Token) :
    String :=
  "Expected " ++ tokTypeName ty ++
    (match v with
     | some s => " " ++ s
     | none => "") ++
    " but got " ++
    (match actual with
     | none => "EOF"
     | some t => tokTypeName t.type ++ " " ++ tokValText t.value)

/-- Whether a token passes the optional exact-value check of expect. -/
def valueMatches (t : Token) (v : Option String) : Bool :=
  match v with
  | none => true
  | some s => t.value.eqStr s

/-- SysMLParser.expect(type, value): validates and consumes the current
token, throwing a structural parse failure on a mismatch or at end of the
token list. -/
def expect (tk : List Token) (pos : Nat) (ty : TokType) (v : Option String) :
    PRes Token :=
  match curTok tk pos with
  | none => .err (expectMsg ty v none)
  | some t =>
    if t.type = ty ∧ valueMatches t v = true then .ok t (pos + 1)
    else .err (expectMsg ty v (some t))

/-- The optional capture `if (current?.type === IDENTIFIER) props[key] = value`
shared by the name, type, specializes, from and to captures. -/
def optProp (tk : List Token) (pos : Nat) (key : String) :
    List (String × TokValue) × Nat :=
  match curTok tk pos with
  | some t =>
    if t.type = TokType.identifier then ([(key, t.value)], pos + 1)
    else ([], pos)
  | none => ([], pos)

/-- The default-value capture of parseAttribute: a NUMBER or STRING token. -/
def optDefaultValue (tk : List Token) (pos : Nat) :
    List (String × TokValue) × Nat :=
  match curTok tk pos with
  | some t =>
    if t.type = TokType.number ∨ t.type = TokType.string then
      ([("defaultValue", t.value)], pos + 1)
    else ([], pos)
  | none => ([], pos)

/-- The pattern `if (current?.value === v) advance()`. -/
def skipIfVal (tk : List Token) (pos : Nat) (v : String) : Nat :=
  if curValIs tk pos v then pos + 1 else pos

/-- The skip loop of parseGenericElement: advance until the next token whose
value is a semicolon or a closing brace, or until the end of the tokens. -/
def skipToTermAux : Nat → List Token → Nat → Nat
  | 0, _, pos => pos
  | n + 1, tk, pos =>
    match curTok tk pos with
    | none => pos
    | some t =>
      if t.value.eqStr ";" || t.value.eqStr "\x7d" then pos
      else skipToTermAux n tk (pos + 1)

/-- The skip loop started at the current cursor position; every iteration
consumes one token and the loop stops at the end of the token list, so
`tk.length - pos` iterations always suffice. -/
def skipToTerm (tk : List Token) (pos : Nat) : Nat :=
  skipToTermAux (tk.length - pos) tk pos

/-- SysMLParser.parseGenericElement(): an optional name capture (only from
an IDENTIFIER token), the skip loop, and an optional trailing semicolon; a
closing brace is never consumed. -/
def parseGenericElement (tk : List Token) (pos : Nat) :
    PRes (Option ASTNode) :=
  match curTok tk pos with
  | none => .ok none pos
  | some t0 =>
    let np := if t0.type = TokType.identifier then [("name", t0.value)] else []
    let pos1 := if t0.type = TokType.identifier then pos + 1 else pos
    let pos2 := skipToTerm tk pos1
    let pos3 := skipIfVal tk pos2 ";"
    .ok (some (.node "generic" np [])) pos3

/-- SysMLParser.parseAttribute(): keyword, optional name, optional typed
annotation, optional default value, optional semicolon. -/
def parseAttribute (tk : List Token) (pos : Nat) : PRes ASTNode :=
  match expect tk pos .keyword (some "attribute") with
  | .err m => .err m
  | .out => .out
  | .ok _ p1 =>
    let (np, p2) := optProp tk p1 "name"
    let (tp, p3) :=
      if curValIs tk p2 ":" then optProp tk (p2 + 1) "type" else ([], p2)
    let (dp, p4) :=
      if curValIs tk p3 "=" then optDefaultValue tk (p3 + 1) else ([], p3)
    let p5 := skipIfVal tk p4 ";"
    .ok (.node "attribute" (np ++ tp ++ dp) []) p5

/-- SysMLParser.parsePort(): keyword, optional name, optional typed
annotation, optional semicolon. -/
def parsePort (tk : List Token) (pos : Nat) : PRes ASTNode :=
  match expect tk pos .keyword (some "port") with
  | .err m => .err m
  | .out => .out
  | .ok _ p1 =>
    let (np, p2) := optProp tk p1 "name"
    let (tp, p3) :=
      if curValIs tk p2 ":" then optProp tk (p2 + 1) "type" else ([], p2)
    let p4 := skipIfVal tk p3 ";"
    .ok (.node "port" (np ++ tp) []) p4

/-- SysMLParser.parseConnection(): keyword, optional name, then after a
colon a first IDENTIFIER as the from endpoint and an immediately following
IDENTIFIER as the to endpoint; an optional semicolon.  Dotted names are not
consumed. -/
def parseConnection (tk : List Token) (pos : Nat) : PRes ASTNode :=
  match expect tk pos .keyword (some "connection") with
  | .err m => .err m
  | .out => .out
  | .ok _ p1 =>
    let (np, p2) := optProp tk p1 "name"
    let (fp, p3) :=
      if curValIs tk p2 ":" then
        match curTok tk (p2 + 1) with
        | some t =>
          if t.type = TokType.identifier then
            let (tp, p') := optProp tk (p2 + 2) "to"
            ([("from", t.value)] ++ tp, p')
          else ([], p2 + 1)
        | none => ([], p2 + 1)
      else ([], p2)
    let p4 := skipIfVal tk p3 ";"
    .ok (.node "connection" (np ++ fp) []) p4

/-- Lifts a rule returning a node to the Option-valued result of
parseElement. -/
def mapNode : PRes ASTNode → PRes (Option ASTNode)
  | .ok n p => .ok (some n) p
  | .err m => .err m
  | .out => .out

mutual

/-- SysMLParser.parseElement(): null at end or at an EOF token, otherwise a
keyword dispatch to the dedicated rules with a fall-through to the generic
rule. -/
def parseElement (tk : List Token) : Nat → Nat → PRes (Option ASTNode)
  | 0, _ => .out
  | fuel + 1, pos =>
    match curTok tk pos with
    | none => .ok none pos
    | some t =>
      if t.type = TokType.eof then .ok none pos
      else if t.type = TokType.keyword then
        if t.value.eqStr "package" then mapNode (parsePackage tk fuel pos)
        else if t.value.eqStr "part" then mapNode (parsePart tk fuel pos)
        else if t.value.eqStr "attribute" then mapNode (parseAttribute tk pos)
        else if t.value.eqStr "port" then mapNode (parsePort tk pos)
        else if t.value.eqStr "connection" then
          mapNode (parseConnection tk pos)
        else if t.value.eqStr "requirement" then
          mapNode (parseRequirement tk fuel pos)
        else if t.value.eqStr "use" then mapNode (parseUseCase tk fuel pos)
        else parseGenericElement tk pos
      else parseGenericElement tk pos
termination_by structural fuel _ => fuel

/-- SysMLParser.parsePackage(): keyword, optional name, optional braced
body. -/
def parsePackage (tk : List Token) : Nat → Nat → PRes ASTNode
  | 0, _ => .out
  | fuel + 1, pos =>
    match expect tk pos .keyword (some "package") with
    | .err m => .err m
    | .out => .out
    | .ok _ p1 =>
      let (np, p2) := optProp tk p1 "name"
      if curValIs tk p2 "\x7b" then
        match expect tk p2 .punctuation (some "\x7b") with
        | .err m => .err m
        | .out => .out
        | .ok _ p3 =>
          match parseBody tk fuel p3 [] with
          | .err m => .err m
          | .out => .out
          | .ok kids p4 =>
            match expect tk p4 .punctuation (some "\x7d") with
            | .err m => .err m
            | .out => .out
            | .ok _ p5 => .ok (.node "package" np kids) p5
      else .ok (.node "package" np []) p2
termination_by structural fuel _ => fuel

/-- SysMLParser.parsePart(): keyword, optional name, optional specializes
clause matched by bare value, then a braced body or a semicolon. -/
def parsePart (tk : List Token) : Nat → Nat → PRes ASTNode
  | 0, _ => .out
  | fuel + 1, pos =>
    match expect tk pos .keyword (some "part") with
    | .err m => .err m
    | .out => .out
    | .ok _ p1 =>
      let (np, p2) := optProp tk p1 "name"
      let (sp, p3) :=
        if curValIs tk p2 "specializes" then optProp tk (p2 + 1) "specializes"
        else ([], p2)
      if curValIs tk p3 "\x7b" then
        match expect tk p3 .punctuation (some "\x7b") with
        | .err m => .err m
        | .out => .out
        | .ok _ p4 =>
          match parseBody tk fuel p4 [] with
          | .err m => .err m
          | .out => .out
          | .ok kids p5 =>
            match expect tk p5 .punctuation (some "\x7d") with
            | .err m => .err m
            | .out => .out
            | .ok _ p6 => .ok (.node "part" (np ++ sp) kids) p6
      else
        let p4 := skipIfVal tk p3 ";"
        .ok (.node "part" (np ++ sp) []) p4
termination_by structural fuel _ => fuel

/-- SysMLParser.parseRequirement(): keyword, optional name, optional braced
body, no semicolon handling. -/
def parseRequirement (tk : List Token) : Nat → Nat → PRes ASTNode
  | 0, _ => .out
  | fuel + 1, pos =>
    match expect tk pos .keyword (some "requirement") with
    | .err m => .err m
    | .out => .out
    | .ok _ p1 =>
      let (np, p2) := optProp tk p1 "name"
      if curValIs tk p2 "\x7b" then
        match expect tk p2 .punctuation (some "\x7b") with
        | .err m => .err m
        | .out => .out
        | .ok _ p3 =>
          match parseBody tk fuel p3 [] with
          | .err m => .err m
          | .out => .out
          | .ok kids p4 =>
            match expect tk p4 .punctuation (some "\x7d") with
            | .err m => .err m
            | .out => .out
            | .ok _ p5 => .ok (.node "requirement" np kids) p5
      else .ok (.node "requirement" np []) p2
termination_by structural fuel _ => fuel

/-- SysMLParser.parseUseCase(): the use keyword, an optional bare case
keyword matched by value, optional name, optional braced body. -/
def parseUseCase (tk : List Token) : Nat → Nat → PRes ASTNode
  | 0, _ => .out
  | fuel + 1, pos =>
    match expect tk pos .keyword (some "use") with
    | .err m => .err m
    | .out => .out
    | .ok _ p1 =>
      let p2 := skipIfVal tk p1 "case"
      let (np, p3) := optProp tk p2 "name"
      if curValIs tk p3 "\x7b" then
        match expect tk p3 .punctuation (some "\x7b") with
        | .err m => .err m
        | .out => .out
        | .ok _ p4 =>
          match parseBody tk fuel p4 [] with
          | .err m => .err m
          | .out => .out
          | .ok kids p5 =>
            match expect tk p5 .punctuation (some "\x7d") with
            | .err m => .err m
            | .out => .out
            | .ok _ p6 => .ok (.node "usecase" np kids) p6
      else .ok (.node "usecase" np []) p3
termination_by structural fuel _ => fuel

/-- The body loop shared by the braced rules: while the current token exists
and its value is not a closing brace, parse one element and append it when
it is non-null.  The loop condition never looks at the token type, so an EOF
token does not stop it. -/
def parseBody (tk : List Token) : Nat → Nat → List ASTNode →
    PRes (List ASTNode)
  | 0, _, _ => .out
  | fuel + 1, pos, acc =>
    match curTok tk pos with
    | none => .ok acc pos
    | some t =>
      if t.value.eqStr "\x7d" then .ok acc pos
      else
        match parseElement tk fuel pos with
        | .err m => .err m
        | .out => .out
        | .ok el p' => parseBody tk fuel p' (acc ++ el.toList)
termination_by structural fuel _ _ => fuel

end

/-- Outcome of the top-level loop of SysMLParser.parse(): normal completion
with the accumulated top-level elements, a structural failure raised by some
rule together with the elements completed before it, or fuel exhaustion. -/
inductive TRes where
  | done (elts : List ASTNode)
  | failed (msg : String) (elts : List ASTNode)
  | out

/-- The try-block loop of SysMLParser.parse(): while the current token
exists and is not EOF, parse one element and append it when non-null; a
raised failure stops the loop with the elements accumulated so far. -/
def topLoop (tk : List Token) : Nat → Nat → List ASTNode → TRes
  | 0, _, _ => .out
  | fuel + 1, pos, acc =>
    match curTok tk pos with
    | none => .done acc
    | some t =>
      if t.type = TokType.eof then .done acc
      else
        match parseElement tk fuel pos with
        | .err m => .failed m acc
        | .out => .out
        | .ok el p' => topLoop tk fuel p' (acc ++ el.toList)

/-- SysMLParser.parse(): returns the root node paired with the logging side
channel (the console.error message written by the catch handler, none when
no failure was raised).  The whole loop sits inside a single try/catch, so a
failure yields the root with the elements completed before it and the error
is never re-thrown.  A none result models divergence of the source loop:
the fuel ran out at every fuel value. -/
def parse (tk : List Token) (fuel : Nat) : Option (ASTNode × Option String) :=
  match topLoop tk fuel 0 [] with
  | .done cs => some (.node "root" [] cs, none)
  | .failed m cs => some (.node "root" [] cs, some m)
  | .out => none

/-- The 1-based (line, column) coordinates of the character at a given
index, computed from the text alone: index 0 sits at (1, 1), passing a
newline moves to the next line and resets the column to 1, and passing any
other character (or moving past the end) bumps the column. -/
def posAt (text : List Char) : Nat → Nat × Nat
  | 0 => (1, 1)
  | n + 1 =>
    match text[n]? with
    | some c =>
      if c = '\n' then ((posAt text n).1 + 1, 1)
      else ((posAt text n).1, (posAt text n).2 + 1)
    | none => ((posAt text n).1, (posAt text n).2 + 1)

/-- The cursor invariant of the tokenizer: the tracked line and column are
exactly the coordinates of the character at the cursor index. -/
def posOK (s : LexState) : Prop :=
  (s.line, s.col) = posAt s.text s.pos

/-- Non-strict lexicographic order on (line, column) pairs. -/
def pairLE (a b : Nat × Nat) : Prop :=
  a.1 < b.1 ∨ (a.1 = b.1 ∧ a.2 ≤ b.2)

/-- Non-strict lexicographic order on the recorded positions of tokens. -/
def tokPairLE (a b : Token) : Prop :=
  pairLE (a.line, a.col) (b.line, b.col)

/-- What one pass of any tokenizer helper does to the cursor state: the text
is unchanged, the position and the (line, column) pair move forward, and a
positive column stays positive. -/
def stepOK (s s' : LexState) : Prop :=
  s'.text = s.text ∧ s.pos ≤ s'.pos ∧
    pairLE (s.line, s.col) (s'.line, s'.col) ∧ (1 ≤ s.col → 1 ≤ s'.col) ∧
    (posOK s → posOK s')

theorem pairLE_refl (a : Nat × Nat) : pairLE a a := by
  right; exact ⟨rfl, le_refl _⟩

theorem pairLE_trans {a b c : Nat × Nat} (h1 : pairLE a b) (h2 : pairLE b c) :
    pairLE a c := by
  rcases h1 with h1 | ⟨h1, h1c⟩ <;> rcases h2 with h2 | ⟨h2, h2c⟩ <;>
    unfold pairLE <;> omega

theorem stepOK_refl (s : LexState) : stepOK s s :=
  ⟨rfl, le_refl _, pairLE_refl _, fun h => h, fun h => h⟩

theorem stepOK_trans {s1 s2 s3 : LexState} (h1 : stepOK s1 s2)
    (h2 : stepOK s2 s3) : stepOK s1 s3 :=
  ⟨h2.1.trans h1.1, h1.2.1.trans h2.2.1, pairLE_trans h1.2.2.1 h2.2.2.1,
    fun h => h2.2.2.2.1 (h1.2.2.2.1 h),
    fun h => h2.2.2.2.2 (h1.2.2.2.2 h)⟩

theorem advance_posOK {s : LexState} (h : posOK s) : posOK (advance s) := by
  unfold posOK at h ⊢
  unfold advance
  split
  · rename_i hc
    rw [cur] at hc
    dsimp only
    rw [posAt, hc]
    simp [← h]
  · rename_i hc
    rw [cur] at hc
    dsimp only
    rw [posAt]
    cases h2 : s.text[s.pos]? with
    | none => simp [← h]
    | some c =>
      have hne : ¬ c = '\n' := by
        intro he
        exact hc (by rw [h2, he])
      simp [hne, ← h]

theorem advance_stepOK (s : LexState) : stepOK s (advance s) := by
  refine ⟨advance_text s, ?_, ?_, ?_, advance_posOK⟩
  · rw [advance_pos]
    omega
  · unfold advance pairLE
    split <;> simp
  · unfold advance
    split <;> dsimp only <;> omega

theorem skipWsAux_stepOK : ∀ (n : Nat) (s : LexState), stepOK s (skipWsAux n s) := by
  intro n
  induction n with
  | zero => intro s; exact stepOK_refl s
  | succ n ih =>
    intro s
    rw [skipWsAux]
    cases h : cur s with
    | none => exact stepOK_refl s
    | some c =>
      by_cases hw : isWsChar c = true
      · simp only [hw, if_true]
        exact stepOK_trans (advance_stepOK s) (ih (advance s))
      · simp only [hw, if_false, Bool.false_eq_true]
        exact stepOK_refl s

theorem skipWhitespace_stepOK (s : LexState) : stepOK s (skipWhitespace s) :=
  skipWsAux_stepOK _ s

theorem readStrAux_stepOK : ∀ (n : Nat) (q : Char) (s : LexState),
    stepOK s (readStrAux n q s).2 := by
  intro n
  induction n with
  | zero => intro q s; exact stepOK_refl s
  | succ n ih =>
    intro q s
    rw [readStrAux]
    cases h : cur s with
    | none => exact stepOK_refl s
    | some c =>
      dsimp only
      by_cases hq : c = q
      · rw [if_pos hq]
        exact stepOK_refl s
      · by_cases hb : c = '\\'
        · rw [if_neg hq, if_pos hb]
          cases h2 : cur (advance s) with
          | none => exact advance_stepOK s
          | some d =>
            exact stepOK_trans (advance_stepOK s)
              (stepOK_trans (advance_stepOK (advance s)) (ih q _))
        · rw [if_neg hq, if_neg hb]
          exact stepOK_trans (advance_stepOK s) (ih q _)

theorem readStringLoop_stepOK (q : Char) (s : LexState) :
    stepOK s (readStringLoop q s).2 :=
  readStrAux_stepOK _ q s

theorem readString_stepOK (s : LexState) : stepOK s (readString s).2 := by
  unfold readString
  cases h : cur s with
  | none => exact stepOK_refl s
  | some q =>
    simp only
    have hl := readStringLoop_stepOK q (advance s)
    have base := stepOK_trans (advance_stepOK s) hl
    split
    · exact stepOK_trans base (advance_stepOK _)
    · exact base

theorem readNumAux_stepOK : ∀ (n : Nat) (s : LexState),
    stepOK s (readNumAux n s).2 := by
  intro n
  induction n with
  | zero => intro s; exact stepOK_refl s
  | succ n ih =>
    intro s
    rw [readNumAux]
    cases h : cur s with
    | none => exact stepOK_refl s
    | some c =>
      by_cases hd : (isDigitChar c || c == '.') = true
      · simp only [hd, if_true]
        exact stepOK_trans (advance_stepOK s) (ih (advance s))
      · simp only [hd, if_false, Bool.false_eq_true]
        exact stepOK_refl s

theorem readNumber_stepOK (s : LexState) : stepOK s (readNumber s).2 :=
  readNumAux_stepOK _ s

theorem readIdentAux_stepOK : ∀ (n : Nat) (s : LexState),
    stepOK s (readIdentAux n s).2 := by
  intro n
  induction n with
  | zero => intro s; exact stepOK_refl s
  | succ n ih =>
    intro s
    rw [readIdentAux]
    cases h : cur s with
    | none => exact stepOK_refl s
    | some c =>
      by_cases hd : isIdentChar c = true
      · simp only [hd, if_true]
        exact stepOK_trans (advance_stepOK s) (ih (advance s))
      · simp only [hd, if_false, Bool.false_eq_true]
        exact stepOK_refl s

theorem readIdentifier_stepOK (s : LexState) : stepOK s (readIdentifier s).2 :=
  readIdentAux_stepOK _ s

theorem readLineAux_stepOK : ∀ (n : Nat) (s : LexState),
    stepOK s (readLineAux n s).2 := by
  intro n
  induction n with
  | zero => intro s; exact stepOK_refl s
  | succ n ih =>
    intro s
    rw [readLineAux]
    cases h : cur s with
    | none => exact stepOK_refl s
    | some c =>
      by_cases hn : c = '\n'
      · simp only [hn, if_true]
        exact stepOK_refl s
      · simp only [hn, if_false]
        exact stepOK_trans (advance_stepOK s) (ih (advance s))

theorem readLineComment_stepOK (s : LexState) :
    stepOK s (readLineComment s).2 :=
  readLineAux_stepOK _ s

theorem readBlockAux_stepOK : ∀ (n : Nat) (s : LexState),
    stepOK s (readBlockAux n s).2 := by
  intro n
  induction n with
  | zero => intro s; exact stepOK_refl s
  | succ n ih =>
    intro s
    rw [readBlockAux]
    cases h : cur s with
    | none => exact stepOK_refl s
    | some c =>
      by_cases hn : c = '*' ∧ peek s 1 = some '/'
      · simp only [hn, if_true]
        exact stepOK_refl s
      · simp only [hn, if_false]
        exact stepOK_trans (advance_stepOK s) (ih (advance s))

theorem readBlockBody_stepOK (s : LexState) : stepOK s (readBlockBody s).2 :=
  readBlockAux_stepOK _ s

theorem readComment_stepOK (s : LexState) : stepOK s (readComment s).2 := by
  unfold readComment
  split
  · exact readLineComment_stepOK s
  · have base := stepOK_trans (advance_stepOK s)
      (stepOK_trans (advance_stepOK (advance s))
        (readBlockBody_stepOK (advance (advance s))))
    split
    · dsimp only
      split
      · exact stepOK_trans base
          (stepOK_trans (advance_stepOK _) (advance_stepOK _))
      · exact base
    · exact stepOK_refl s

theorem readString_pos_gt {s : LexState} {q : Char} (h : cur s = some q) :
    s.pos < (readString s).2.pos := by
  simp only [readString, h]
  have h1 : s.pos + 1 ≤ (readStringLoop q (advance s)).2.pos := by
    have := (readStringLoop_stepOK q (advance s)).2.1
    rw [advance_pos] at this
    exact this
  split
  · try dsimp only
    have h2 := advance_pos (readStringLoop q (advance s)).2
    omega
  · try dsimp only
    omega

theorem readNumber_pos_gt {s : LexState} {c : Char} (h : cur s = some c)
    (hd : (isDigitChar c || c == '.') = true) :
    s.pos < (readNumber s).2.pos := by
  unfold readNumber
  obtain ⟨m, hm⟩ : ∃ m, s.text.length - s.pos = m + 1 :=
    ⟨s.text.length - s.pos - 1, by have := cur_some_lt h; omega⟩
  rw [hm, readNumAux, h]
  dsimp only
  rw [if_pos hd]
  have := (readNumAux_stepOK m (advance s)).2.1
  rw [advance_pos] at this
  try dsimp only
  omega

theorem readIdentifier_pos_gt {s : LexState} {c : Char} (h : cur s = some c)
    (hd : isIdentChar c = true) : s.pos < (readIdentifier s).2.pos := by
  unfold readIdentifier
  obtain ⟨m, hm⟩ : ∃ m, s.text.length - s.pos = m + 1 :=
    ⟨s.text.length - s.pos - 1, by have := cur_some_lt h; omega⟩
  rw [hm, readIdentAux, h]
  dsimp only
  rw [if_pos hd]
  have := (readIdentAux_stepOK m (advance s)).2.1
  rw [advance_pos] at this
  try dsimp only
  omega

theorem readLineComment_pos_gt {s : LexState} {c : Char} (h : cur s = some c)
    (hn : c ≠ '\n') : s.pos < (readLineComment s).2.pos := by
  unfold readLineComment
  obtain ⟨m, hm⟩ : ∃ m, s.text.length - s.pos = m + 1 :=
    ⟨s.text.length - s.pos - 1, by have := cur_some_lt h; omega⟩
  rw [hm, readLineAux, h]
  dsimp only
  rw [if_neg hn]
  have := (readLineAux_stepOK m (advance s)).2.1
  rw [advance_pos] at this
  try dsimp only
  omega

theorem readComment_pos_gt {s : LexState} (h : cur s = some '/')
    (hp : peek s 1 = some '/' ∨ peek s 1 = some '*') :
    s.pos < (readComment s).2.pos := by
  unfold readComment
  split
  · exact readLineComment_pos_gt h (by decide)
  · have base : s.pos + 2 ≤ (readBlockBody (advance (advance s))).2.pos := by
      have := (readBlockBody_stepOK (advance (advance s))).2.1
      rw [advance_pos, advance_pos] at this
      exact this
    split
    · dsimp only
      split
      · dsimp only
        have h1 := advance_pos (readBlockBody (advance (advance s))).2
        have h2 := advance_pos (advance (readBlockBody (advance (advance s))).2)
        omega
      · dsimp only
        omega
    · rename_i h1 h2
      exfalso
      rcases hp with hp | hp
      · exact h1 ⟨h, hp⟩
      · exact h2 ⟨h, hp⟩

theorem scanToken_spec (s : LexState) :
    (scanToken s).1.line = s.line ∧ (scanToken s).1.col = s.col ∧
      stepOK s (scanToken s).2 ∧
      ((scanToken s).1.type ≠ TokType.eof → s.pos < (scanToken s).2.pos) := by
  unfold scanToken
  cases h : cur s with
  | none =>
    exact ⟨rfl, rfl, stepOK_refl s, fun hne => absurd rfl hne⟩
  | some c =>
    dsimp only
    split_ifs with h1 h2 h3 h4 hk h5 h6
    · refine ⟨rfl, rfl, readComment_stepOK s, fun _ => ?_⟩
      exact readComment_pos_gt (h1.1 ▸ h) h1.2
    · refine ⟨rfl, rfl, readString_stepOK s, fun _ => ?_⟩
      exact readString_pos_gt h
    · refine ⟨rfl, rfl, readNumber_stepOK s, fun _ => ?_⟩
      exact readNumber_pos_gt h (by simp [h3])
    · refine ⟨rfl, rfl, readIdentifier_stepOK s, fun _ => ?_⟩
      exact readIdentifier_pos_gt h (by simp [isIdentChar, h4])
    · refine ⟨rfl, rfl, readIdentifier_stepOK s, fun _ => ?_⟩
      exact readIdentifier_pos_gt h (by simp [isIdentChar, h4])
    · refine ⟨rfl, rfl, advance_stepOK s, fun _ => ?_⟩
      rw [advance_pos]; omega
    · refine ⟨rfl, rfl, advance_stepOK s, fun _ => ?_⟩
      rw [advance_pos]; omega
    · refine ⟨rfl, rfl, advance_stepOK s, fun _ => ?_⟩
      rw [advance_pos]; omega

theorem nextToken_tok_line (s0 : LexState) :
    (nextToken s0).1.line = (skipWhitespace s0).line :=
  (scanToken_spec (skipWhitespace s0)).1

theorem nextToken_tok_col (s0 : LexState) :
    (nextToken s0).1.col = (skipWhitespace s0).col :=
  (scanToken_spec (skipWhitespace s0)).2.1

theorem nextToken_stepOK (s0 : LexState) : stepOK s0 (nextToken s0).2 :=
  stepOK_trans (skipWhitespace_stepOK s0)
    (scanToken_spec (skipWhitespace s0)).2.2.1

theorem nextToken_mid_stepOK (s0 : LexState) :
    stepOK (skipWhitespace s0) (nextToken s0).2 :=
  (scanToken_spec (skipWhitespace s0)).2.2.1

/-- When nextToken does not return the EOF token, the scan consumed at
least one character of a position inside the text. -/
theorem nextToken_progress (s0 : LexState)
    (hne : (nextToken s0).1.type ≠ TokType.eof) :
    s0.pos < (nextToken s0).2.pos ∧ s0.pos < s0.text.length := by
  have hs := skipWhitespace_stepOK s0
  have hlt := (scanToken_spec (skipWhitespace s0)).2.2.2 hne
  have hcur : (skipWhitespace s0).pos < (skipWhitespace s0).text.length := by
    rcases hc : cur (skipWhitespace s0) with _ | c
    · exfalso
      apply hne
      show (scanToken (skipWhitespace s0)).1.type = TokType.eof
      rw [scanToken, hc]
    · exact cur_some_lt hc
  rw [hs.1] at hcur
  exact ⟨lt_of_le_of_lt hs.2.1 hlt, lt_of_le_of_lt hs.2.1 hcur⟩

theorem nextToken_text (s0 : LexState) : (nextToken s0).2.text = s0.text :=
  (nextToken_stepOK s0).1

theorem forall_pair_weaken {a b : Nat × Nat} {l : List Token}
    (hab : pairLE a b) (h : l.Forall (fun t => pairLE b (t.line, t.col))) :
    l.Forall (fun t => pairLE a (t.line, t.col)) := by
  rw [List.forall_iff_forall_mem] at h ⊢
  exact fun t ht => pairLE_trans hab (h t ht)

theorem tokenizeAux_eof (fuel : Nat) : ∀ s : LexState,
    s.text.length - s.pos < fuel →
    ∃ pre t, tokenizeAux fuel s = pre ++ [t] ∧ t.type = TokType.eof ∧
      pre.Forall (fun u => ¬ u.type = TokType.eof) := by
  induction fuel with
  | zero => intro s h; omega
  | succ fuel ih =>
    intro s h
    by_cases ht : (nextToken s).1.type = TokType.eof
    · refine ⟨[], (nextToken s).1, ?_, ht, trivial⟩
      rw [tokenizeAux]
      simp [ht]
    · have hp := nextToken_progress s ht
      have htx := nextToken_text s
      have hm : (nextToken s).2.text.length - (nextToken s).2.pos < fuel := by
        rw [htx]; omega
      obtain ⟨pre, t', heq, ht', hall⟩ := ih (nextToken s).2 hm
      by_cases hw : (nextToken s).1.type = TokType.whitespace
      · refine ⟨pre, t', ?_, ht', hall⟩
        rw [tokenizeAux]
        simp [ht, hw, heq]
      · refine ⟨(nextToken s).1 :: pre, t', ?_, ht', ?_⟩
        · rw [tokenizeAux]
          simp [ht, hw, heq]
        · simpa [List.forall_cons] using ⟨ht, hall⟩

theorem tokenizeAux_mono (fuel : Nat) : ∀ s : LexState,
    (tokenizeAux fuel s).Forall
      (fun t => pairLE (s.line, s.col) (t.line, t.col)) ∧
      List.Chain' tokPairLE (tokenizeAux fuel s) := by
  induction fuel with
  | zero => intro s; exact ⟨trivial, List.chain'_nil⟩
  | succ fuel ih =>
    intro s
    have hpair : pairLE (s.line, s.col)
        ((nextToken s).1.line, (nextToken s).1.col) := by
      rw [nextToken_tok_line, nextToken_tok_col]
      exact (skipWhitespace_stepOK s).2.2.1
    have hmid : pairLE ((nextToken s).1.line, (nextToken s).1.col)
        ((nextToken s).2.line, (nextToken s).2.col) := by
      rw [nextToken_tok_line, nextToken_tok_col]
      exact (nextToken_mid_stepOK s).2.2.1
    have hstep : pairLE (s.line, s.col)
        ((nextToken s).2.line, (nextToken s).2.col) :=
      (nextToken_stepOK s).2.2.1
    obtain ⟨ihF, ihC⟩ := ih (nextToken s).2
    rw [tokenizeAux]
    by_cases ht : (nextToken s).1.type = TokType.eof
    · simp only [ht, if_true]
      have : ¬ TokType.eof = TokType.whitespace := by decide
      simp [this, List.forall_cons, hpair]
    · by_cases hw : (nextToken s).1.type = TokType.whitespace
      · simp only [ht, if_false, hw, if_true]
        exact ⟨forall_pair_weaken hstep ihF, ihC⟩
      · simp only [ht, if_false, hw]
        refine ⟨?_, ?_⟩
        · simp only [List.forall_cons]
          exact ⟨hpair, forall_pair_weaken hstep ihF⟩
        · rw [List.chain'_cons']
          refine ⟨?_, ihC⟩
          intro y hy
          cases hl : tokenizeAux fuel (nextToken s).2 with
          | nil => rw [hl] at hy; exact absurd hy (by simp)
          | cons z zs =>
            rw [hl] at hy
            simp at hy
            subst hy
            have hz : pairLE ((nextToken s).2.line, (nextToken s).2.col)
                (z.line, z.col) := by
              rw [hl, List.forall_cons] at ihF
              exact ihF.1
            exact pairLE_trans hmid hz

theorem tokenizeAux_colpos (fuel : Nat) : ∀ s : LexState, 1 ≤ s.col →
    (tokenizeAux fuel s).Forall (fun t => 1 ≤ t.col) := by
  induction fuel with
  | zero => intro s _; trivial
  | succ fuel ih =>
    intro s hc
    have htc : 1 ≤ (nextToken s).1.col := by
      rw [nextToken_tok_col]
      exact (skipWhitespace_stepOK s).2.2.2.1 hc
    have hsc : 1 ≤ (nextToken s).2.col := (nextToken_stepOK s).2.2.2.1 hc
    rw [tokenizeAux]
    by_cases ht : (nextToken s).1.type = TokType.eof
    · have : ¬ TokType.eof = TokType.whitespace := by decide
      simp [ht, this, List.forall_cons, htc]
    · by_cases hw : (nextToken s).1.type = TokType.whitespace
      · simp only [ht, if_false, hw, if_true]
        exact ih (nextToken s).2 hsc
      · simp only [ht, if_false, hw]
        simp only [List.forall_cons]
        exact ⟨htc, ih (nextToken s).2 hsc⟩

theorem cur_drop {s : LexState} {c : Char} (h : cur s = some c) :
    s.text.drop s.pos = c :: s.text.drop (s.pos + 1) := by
  obtain ⟨hl, he⟩ := List.getElem?_eq_some.mp h
  rw [List.drop_eq_getElem_cons hl, he]

theorem cur_none_drop {s : LexState} (h : cur s = none) :
    s.text.drop s.pos = [] := by
  rw [cur, List.getElem?_eq_none_iff] at h
  exact List.drop_eq_nil_of_le h

/-- Spec-side description of the decoded content of a string literal, written
from the specification text: the content between matching quotes of the same
quote character; a backslash appends the immediately following character
verbatim; an unterminated literal yields whatever was accumulated. -/
def decodeString (q : Char) : List Char → String
  | [] => ""
  | c :: rest =>
    if c = q then ""
    else if c = '\\' then
      match rest with
      | [] => ""
      | d :: rest2 => d.toString ++ decodeString q rest2
    else c.toString ++ decodeString q rest

theorem advance_drop (s : LexState) :
    (advance s).text.drop (advance s).pos = s.text.drop (s.pos + 1) := by
  rw [advance_text, advance_pos]

theorem readStrAux_decodes : ∀ (n : Nat) (q : Char) (s : LexState),
    s.text.length - s.pos ≤ n →
    (readStrAux n q s).1 = decodeString q (s.text.drop s.pos) := by
  intro n
  induction n with
  | zero =>
    intro q s hn
    have hd : s.text.drop s.pos = [] := List.drop_eq_nil_of_le (by omega)
    rw [readStrAux, hd]
    rfl
  | succ n ih =>
    intro q s hn
    rw [readStrAux]
    cases hc : cur s with
    | none =>
      rw [cur_none_drop hc]
      rfl
    | some c =>
      have hlt := cur_some_lt hc
      rw [cur_drop hc]
      dsimp only
      by_cases hq : c = q
      · rw [if_pos hq, hq, decodeString.eq_def]
        simp
      · by_cases hb : c = '\\'
        · rw [if_neg hq, if_pos hb]
          subst hb
          cases h2 : cur (advance s) with
          | none =>
            have hrest : s.text.drop (s.pos + 1) = [] := by
              have := cur_none_drop h2
              rw [advance_text, advance_pos] at this
              exact this
            rw [hrest, decodeString.eq_def]
            simp [hq]
          | some d =>
            have hrest : s.text.drop (s.pos + 1) = d :: s.text.drop (s.pos + 2) := by
              have := cur_drop h2
              rw [advance_text, advance_pos] at this
              exact this
            have ihh : (readStrAux n q (advance (advance s))).1 =
                decodeString q (s.text.drop (s.pos + 2)) := by
              have hs : (advance (advance s)).text.length -
                  (advance (advance s)).pos ≤ n := by
                rw [advance_text, advance_text, advance_pos, advance_pos]
                omega
              have := ih q (advance (advance s)) hs
              rw [advance_text, advance_text, advance_pos, advance_pos] at this
              exact this
            rw [hrest, decodeString.eq_def]
            simp [hq, ihh]
        · rw [if_neg hq, if_neg hb]
          have ihh : (readStrAux n q (advance s)).1 =
              decodeString q (s.text.drop (s.pos + 1)) := by
            have hs : (advance s).text.length - (advance s).pos ≤ n := by
              rw [advance_text, advance_pos]
              omega
            have := ih q (advance s) hs
            rw [advance_text, advance_pos] at this
            exact this
          rw [decodeString.eq_def]
          simp [hq, hb, ihh]

theorem readStringLoop_decodes (q : Char) (s : LexState) :
    (readStringLoop q s).1 = decodeString q (s.text.drop s.pos) :=
  readStrAux_decodes _ q s (le_refl _)

/-- SysMLTokenizer.readString() refines the spec-side decoder: starting on
an opening quote, the produced value is the decoded content of the
characters after the quote. -/
theorem readString_decodes {s : LexState} {q : Char} (h : cur s = some q) :
    (readString s).1 = decodeString q (s.text.drop (s.pos + 1)) := by
  simp only [readString, h]
  have hd : (readStringLoop q (advance s)).1 =
      decodeString q (s.text.drop (s.pos + 1)) := by
    rw [readStringLoop_decodes, advance_text, advance_pos]
  split
  · exact hd
  · exact hd

theorem skipToTermAux_ge : ∀ (n : Nat) (tk : List Token) (pos : Nat),
    pos ≤ skipToTermAux n tk pos := by
  intro n
  induction n with
  | zero => intro tk pos; exact le_refl pos
  | succ n ih =>
    intro tk pos
    rw [skipToTermAux]
    cases h : curTok tk pos with
    | none => exact le_refl pos
    | some t =>
      dsimp only
      by_cases hv : (t.value.eqStr ";" || t.value.eqStr "\x7d") = true
      · rw [if_pos hv]
      · rw [if_neg hv]
        have := ih tk (pos + 1)
        omega

theorem skipToTerm_ge (tk : List Token) (pos : Nat) : pos ≤ skipToTerm tk pos :=
  skipToTermAux_ge _ tk pos

/-- The token sequence of the input consisting of a single closing brace. -/
def toksRBrace : List Token :=
  [{ type := .punctuation, value := .vStr "\x7d", line := 1, col := 1 },
   { type := .eof, value := .vNull, line := 1, col := 2 }]

theorem tokenize_rbrace : tokenize "\x7d" = toksRBrace := by rfl

/-- At a stray closing brace the top-level loop makes no progress: the
generic rule returns without advancing, so the loop runs out of any amount
of fuel, which models divergence of the source loop. -/
theorem topLoop_rbrace_out : ∀ fuel acc,
    topLoop toksRBrace fuel 0 acc = TRes.out := by
  intro fuel
  induction fuel with
  | zero => intro acc; rfl
  | succ f ih =>
    intro acc
    cases f with
    | zero => rfl
    | succ g =>
      have step : topLoop toksRBrace (g + 1 + 1) 0 acc =
          topLoop toksRBrace (g + 1) 0 (acc ++ [ASTNode.node "generic" [] []]) :=
        rfl
      rw [step]
      exact ih _

/-- The token sequence of the input `package ` followed by an opening brace
that is never closed. -/
def toksPkgBrace : List Token :=
  [{ type := .keyword, value := .vStr "package", line := 1, col := 1 },
   { type := .punctuation, value := .vStr "\x7b", line := 1, col := 9 },
   { type := .eof, value := .vNull, line := 1, col := 10 }]

theorem tokenize_pkgbrace : tokenize "package \x7b" = toksPkgBrace := by rfl

/-- Inside the unterminated body the loop sits on the EOF token forever:
parseElement returns null without advancing, the loop condition only
compares the token value against a closing brace, and no fuel suffices. -/
theorem parseBody_pkgbrace_out : ∀ fuel acc,
    parseBody toksPkgBrace fuel 2 acc = PRes.out := by
  intro fuel
  induction fuel with
  | zero => intro acc; rfl
  | succ f ih =>
    intro acc
    cases f with
    | zero => rfl
    | succ g =>
      have step : parseBody toksPkgBrace (g + 1 + 1) 2 acc =
          parseBody toksPkgBrace (g + 1) 2 (acc ++ []) := rfl
      rw [step]
      exact ih _

theorem skipIfVal_ge (tk : List Token) (pos : Nat) (v : String) :
    pos ≤ skipIfVal tk pos v := by
  unfold skipIfVal
  split <;> omega

theorem skipToTerm_gt {tk : List Token} {pos : Nat} {t : Token}
    (h : curTok tk pos = some t)
    (hv : (t.value.eqStr ";" || t.value.eqStr "\x7d") = false) :
    pos < skipToTerm tk pos := by
  unfold skipToTerm
  obtain ⟨m, hm⟩ : ∃ m, tk.length - pos = m + 1 := by
    have hlt : pos < tk.length := by
      by_contra hge
      rw [curTok, List.getElem?_eq_none (by omega)] at h
      exact Option.noConfusion h
    exact ⟨tk.length - pos - 1, by omega⟩
  rw [hm, skipToTermAux, h]
  dsimp only
  rw [if_neg (by simp [hv])]
  have := skipToTermAux_ge m tk (pos + 1)
  omega

/-- The selection test of the rendering collaborator astToSVG: the source
computes `isSelected` as `selectedNode?.properties.name ===
astNode.properties.name`, a strict equality on the name payloads only; a
null selected node and an absent name key both read as undefined, modelled
by none. -/
def isSelectedFor (selected : Option ASTNode) (n : ASTNode) : Bool :=
  decide (selected.bind (lookupProp "name") = lookupProp "name" n)

/-- Modelled from the spec: the comparison the specification describes for
the rendering collaborator, pairing the node type with properties.name. -/
def selectedBySpecPair (sel n : ASTNode) : Bool :=
  decide (sel.type = n.type) &&
    decide (lookupProp "name" sel = lookupProp "name" n)

/-- C1: for every token sequence, when any grammar rule raises a structural
parse failure, the failure is caught at the single top-level recovery
boundary of parse(), the loop stops, and parse() returns the root holding
exactly the fully-parsed top-level siblings completed before the failure;
the element under construction is discarded and the error reaches only the
logging side channel, never the caller. -/
theorem parse_catches_failure_at_root (tk : List Token) (fuel : Nat)
    (msg : String) (cs : List ASTNode)
    (h : topLoop tk fuel 0 [] = TRes.failed msg cs) :
    parse tk fuel = some (ASTNode.node "root" [] cs, some msg) := by
  unfold parse
  rw [h]

theorem parse_catches_failure_at_root_witness :
    parse (tokenize "package \x7b foo") 10 =
      some (ASTNode.node "root" [] [],
        some "Expected punctuation \x7d but got EOF") :=
  parse_catches_failure_at_root (tokenize "package \x7b foo") 10
    "Expected punctuation \x7d but got EOF" [] (by rfl)

/-- C2: the claim that parse() terminates on every lexer-produced token
sequence fails on the code: on the input consisting of a single closing
brace, parseGenericElement returns without advancing, the top-level loop
re-reads the same token index forever, and parse() exhausts every amount of
fuel (the embedding of divergence). -/
theorem parse_diverges_on_stray_rbrace :
    ∀ fuel, parse (tokenize "\x7d") fuel = none := by
  intro fuel
  rw [tokenize_rbrace]
  unfold parse
  rw [topLoop_rbrace_out fuel []]

/-- C3: the claim that an unmatched opening brace makes the enclosing
expect fail at EOF fails on the code: on the input `package ` followed by a
lone opening brace the body loop sits on the EOF token forever (its
condition only compares the token value with a closing brace while
parseElement returns null without advancing), so expect is never reached
and parse() diverges, exhausting every amount of fuel. -/
theorem parse_diverges_on_unterminated_package :
    ∀ fuel, parse (tokenize "package \x7b") fuel = none := by
  intro fuel
  rw [tokenize_pkgbrace]
  match fuel with
  | 0 => rfl
  | 1 => rfl
  | 2 => rfl
  | (k + 3) =>
    have hb := parseBody_pkgbrace_out k []
    have h2 : parsePackage toksPkgBrace (k + 1) 0 = PRes.out := by
      have hstep : parsePackage toksPkgBrace (k + 1) 0 =
          (match parseBody toksPkgBrace k 2 [] with
           | .err m => .err m
           | .out => .out
           | .ok kids p4 =>
             match expect toksPkgBrace p4 .punctuation (some "\x7d") with
             | .err m => .err m
             | .out => .out
             | .ok _ p5 => .ok (.node "package" [] kids) p5) := rfl
      rw [hstep, hb]
    have h3 : parseElement toksPkgBrace (k + 2) 0 = PRes.out := by
      have hstep : parseElement toksPkgBrace (k + 2) 0 =
          mapNode (parsePackage toksPkgBrace (k + 1) 0) := rfl
      rw [hstep, h2]
      rfl
    have h4 : topLoop toksPkgBrace (k + 3) 0 [] = TRes.out := by
      have hstep : topLoop toksPkgBrace (k + 3) 0 [] =
          (match parseElement toksPkgBrace (k + 2) 0 with
           | .err m => .failed m []
           | .out => .out
           | .ok el p' => topLoop toksPkgBrace (k + 2) p' ([] ++ el.toList)) :=
        rfl
      rw [hstep, h3]
    unfold parse
    rw [h4]

/-- C4: for every input text, tokenize() terminates without raising and
returns a token sequence whose final token is EOF, with exactly one EOF
token in the whole sequence and none before the end. -/
theorem tokenize_ends_with_single_eof (input : String) :
    ∃ pre t, tokenize input = pre ++ [t] ∧ t.type = TokType.eof ∧
      pre.Forall (fun u => ¬ u.type = TokType.eof) := by
  unfold tokenize
  exact tokenizeAux_eof _ _ (by dsimp only; omega)

/-- C5: parsing `connection c : a B.c;` produces a connection node with
name c, from a, to B; the connection rule stops at position 5, which holds
the unconsumed dot token, and the full parse yields the connection followed
by a sibling generic node carrying no name, produced from the `.c;`
remainder. -/
theorem connection_qualified_name_boundary :
    parseConnection (tokenize "connection c : a B.c;") 0 =
      PRes.ok (ASTNode.node "connection"
        [("name", TokValue.vStr "c"), ("from", TokValue.vStr "a"),
         ("to", TokValue.vStr "B")] []) 5 ∧
    (tokenize "connection c : a B.c;")[5]? =
      some { type := TokType.punctuation, value := TokValue.vStr ".",
             line := 1, col := 19 } ∧
    parse (tokenize "connection c : a B.c;") 30 =
      some (ASTNode.node "root" []
        [ASTNode.node "connection"
          [("name", TokValue.vStr "c"), ("from", TokValue.vStr "a"),
           ("to", TokValue.vStr "B")] [],
         ASTNode.node "generic" [] []], none) :=
  ⟨rfl, rfl, rfl⟩

/-- A lone EOF token, a lone dot token and a lone keyword token used as
concrete parseElement inputs. -/
def eofTok1 : Token :=
  { type := TokType.eof, value := TokValue.vNull, line := 1, col := 1 }

def dotTok1 : Token :=
  { type := TokType.punctuation, value := TokValue.vStr ".", line := 1, col := 1 }

def blockTok1 : Token :=
  { type := TokType.keyword, value := TokValue.vStr "block", line := 1, col := 1 }

/-- C6 counterexample: an EOF token is a non-KEYWORD current token, yet
parseElement does not dispatch it to the generic rule: it returns null
without advancing, while the generic rule would produce a node and advance
past the token, so the claim as stated fails at an EOF current token. -/
theorem parseElement_eof_not_generic :
    parseElement [eofTok1] 5 0 = PRes.ok none 0 ∧
    parseGenericElement [eofTok1] 0 =
      PRes.ok (some (ASTNode.node "generic" [] [])) 1 ∧
    PRes.ok (none : Option ASTNode) 0 ≠
      PRes.ok (some (ASTNode.node "generic" [] [])) 1 := by
  refine ⟨rfl, rfl, ?_⟩
  intro h
  injection h with h1 h2
  exact Option.noConfusion h1

/-- C6 (amended to exclude the EOF token): every non-KEYWORD, non-EOF
current token and every KEYWORD outside the dedicated set dispatch to the
generic rule; for an unmatched keyword the generic node captures no name
(the capture requires an IDENTIFIER token) and the keyword itself is
consumed by the skip loop, leaving a generic node with no name property. -/
theorem parseElement_generic_dispatch :
    (∀ (tk : List Token) (fuel pos : Nat) (t : Token),
        curTok tk pos = some t → t.type ≠ TokType.keyword →
        t.type ≠ TokType.eof →
        parseElement tk (fuel + 1) pos = parseGenericElement tk pos) ∧
    (∀ (tk : List Token) (fuel pos : Nat) (t : Token) (k : String),
        curTok tk pos = some t → t.type = TokType.keyword →
        t.value = TokValue.vStr k → k ∈ KEYWORDS →
        k ∉ ["package", "part", "attribute", "port", "connection",
             "requirement", "use"] →
        parseElement tk (fuel + 1) pos = parseGenericElement tk pos ∧
        ∃ p', parseGenericElement tk pos =
            PRes.ok (some (ASTNode.node "generic" [] [])) p' ∧ pos < p') := by
  constructor
  · intro tk fuel pos t h hkw he
    rw [parseElement, h]
    dsimp only
    rw [if_neg he, if_neg hkw]
  · intro tk fuel pos t k h hkw hv hmem hnd
    simp only [List.mem_cons, List.mem_singleton, not_or] at hnd
    obtain ⟨h1, h2, h3, h4, h5, h6, h7, _⟩ := hnd
    have hke : t.type ≠ TokType.eof := by rw [hkw]; decide
    have hki : ¬ t.type = TokType.identifier := by rw [hkw]; decide
    have hterm : (t.value.eqStr ";" || t.value.eqStr "\x7d") = false := by
      rw [hv]
      have hsc : ∀ x ∈ KEYWORDS, x ≠ ";" ∧ x ≠ "\x7d" := by decide
      obtain ⟨hx1, hx2⟩ := hsc k hmem
      simp [TokValue.eqStr, hx1, hx2]
    have hgen : parseGenericElement tk pos =
        PRes.ok (some (ASTNode.node "generic" [] []))
          (skipIfVal tk (skipToTerm tk pos) ";") := by
      rw [parseGenericElement, h]
      dsimp only
      rw [if_neg hki, if_neg hki]
    refine ⟨?_, skipIfVal tk (skipToTerm tk pos) ";", hgen, ?_⟩
    · rw [parseElement, h]
      dsimp only
      rw [if_neg hke, if_pos hkw]
      rw [if_neg (by simp [hv, TokValue.eqStr, h1]),
        if_neg (by simp [hv, TokValue.eqStr, h2]),
        if_neg (by simp [hv, TokValue.eqStr, h3]),
        if_neg (by simp [hv, TokValue.eqStr, h4]),
        if_neg (by simp [hv, TokValue.eqStr, h5]),
        if_neg (by simp [hv, TokValue.eqStr, h6]),
        if_neg (by simp [hv, TokValue.eqStr, h7])]
    · have hs := skipToTerm_gt h hterm
      have hi := skipIfVal_ge tk (skipToTerm tk pos) ";"
      omega

theorem parseElement_generic_dispatch_witness :
    parseElement [dotTok1] 3 0 = parseGenericElement [dotTok1] 0 ∧
    (parseElement [blockTok1] 3 0 = parseGenericElement [blockTok1] 0 ∧
      ∃ p', parseGenericElement [blockTok1] 0 =
        PRes.ok (some (ASTNode.node "generic" [] [])) p' ∧ 0 < p') :=
  ⟨parseElement_generic_dispatch.1 [dotTok1] 2 0 dotTok1 rfl (by decide)
     (by decide),
   parseElement_generic_dispatch.2 [blockTok1] 2 0 blockTok1 "block" rfl rfl
     rfl (by decide) (by decide)⟩

/-- C7: the value of a string literal is the decoded content between
matching quotes of the same quote character (decodeString, written from the
spec); a backslash appends the following character verbatim and an
unterminated literal yields the accumulated content without an error; in
particular tokenizing a literal with an escaped quote decodes the quote and
drops the delimiters. -/
theorem string_literal_decoding :
    (∀ (s : LexState) (q : Char), cur s = some q →
        (readString s).1 = decodeString q (s.text.drop (s.pos + 1))) ∧
    tokenize "\"a\\\"b\"" =
      [⟨TokType.string, TokValue.vStr "a\"b", 1, 1⟩,
       ⟨TokType.eof, TokValue.vNull, 1, 7⟩] :=
  ⟨fun _ _ h => readString_decodes h, rfl⟩

/-- A concrete scanner state sitting on the opening quote of a
single-quoted literal. -/
def strWitState : LexState :=
  { text := ['\'', 'h', 'i'], pos := 0, line := 1, col := 1 }

theorem string_literal_decoding_witness :
    (readString strWitState).1 =
      decodeString '\'' (List.drop (0 + 1) strWitState.text) :=
  string_literal_decoding.1 strWitState '\'' rfl

/-- For each token emitted by the tokenize loop, the scanner state from
which it was scanned: the state reached after whitespace skipping and
before any character of the token is consumed.  The recursion mirrors
tokenizeAux step for step, pairing each emitted token with its scan-entry
state. -/
def scanStates : Nat → LexState → List LexState
  | 0, _ => []
  | fuel + 1, s =>
    let t := (nextToken s).1
    let rest :=
      if t.type = TokType.eof then []
      else scanStates fuel (nextToken s).2
    if t.type = TokType.whitespace then rest else skipWhitespace s :: rest

theorem tokenizeAux_records (T : List Char) : ∀ (fuel : Nat) (s : LexState),
    s.text = T → (s.line, s.col) = posAt T s.pos →
    List.Forall₂
      (fun st t =>
        t = (scanToken st).1 ∧ st.text = T ∧
        (t.line, t.col) = posAt T st.pos ∧
        (t.type ≠ TokType.eof → ∃ c, cur st = some c))
      (scanStates fuel s) (tokenizeAux fuel s) := by
  intro fuel
  induction fuel with
  | zero => intro s _ _; exact List.Forall₂.nil
  | succ fuel ih =>
    intro s hT hpos
    have hsOK : posOK s := by
      unfold posOK
      rw [hT]
      exact hpos
    have hsw := skipWhitespace_stepOK s
    have hstT : (skipWhitespace s).text = T := by rw [hsw.1, hT]
    have hstpos : ((skipWhitespace s).line, (skipWhitespace s).col) =
        posAt T (skipWhitespace s).pos := by
      have hp := hsw.2.2.2.2 hsOK
      unfold posOK at hp
      rw [hstT] at hp
      exact hp
    have hrel : (nextToken s).1 = (scanToken (skipWhitespace s)).1 ∧
        (skipWhitespace s).text = T ∧
        ((nextToken s).1.line, (nextToken s).1.col) =
          posAt T (skipWhitespace s).pos ∧
        ((nextToken s).1.type ≠ TokType.eof →
          ∃ c, cur (skipWhitespace s) = some c) := by
      refine ⟨rfl, hstT, ?_, ?_⟩
      · rw [nextToken_tok_line, nextToken_tok_col]
        exact hstpos
      · intro hne
        cases hc : cur (skipWhitespace s) with
        | none =>
          exfalso
          apply hne
          show (scanToken (skipWhitespace s)).1.type = TokType.eof
          rw [scanToken, hc]
        | some c => exact ⟨c, rfl⟩
    have hns := nextToken_stepOK s
    have hnT : (nextToken s).2.text = T := by rw [hns.1, hT]
    have hnpos : ((nextToken s).2.line, (nextToken s).2.col) =
        posAt T (nextToken s).2.pos := by
      have hp := hns.2.2.2.2 hsOK
      unfold posOK at hp
      rw [hnT] at hp
      exact hp
    rw [tokenizeAux, scanStates]
    by_cases ht : (nextToken s).1.type = TokType.eof
    · simp only [ht, if_true]
      have hne : ¬ TokType.eof = TokType.whitespace := by decide
      simp only [ht, hne, if_false]
      exact List.Forall₂.cons hrel List.Forall₂.nil
    · by_cases hw : (nextToken s).1.type = TokType.whitespace
      · simp only [ht, if_false, hw, if_true]
        exact ih (nextToken s).2 hnT hnpos
      · simp only [ht, if_false, hw]
        exact List.Forall₂.cons hrel (ih (nextToken s).2 hnT hnpos)

/-- C8: every token records a 1-based line and column; across the output of
tokenize() the recorded (line, column) positions are non-decreasing in
lexicographic order; and every token records the coordinates of its first
character, captured before any character of the token is consumed: the
third conjunct pairs each emitted token with its scan-entry state (after
whitespace skipping, before any advance), states that the token is exactly
what the scan produces from that state, that its recorded pair equals the
coordinates of the character at that state's cursor index as computed by
posAt from the input text alone, and that for every non-EOF token that
cursor holds a character, the token's first. -/
theorem token_positions_monotone_one_based (input : String) :
    List.Chain' tokPairLE (tokenize input) ∧
      (tokenize input).Forall (fun t => 1 ≤ t.line ∧ 1 ≤ t.col) ∧
      List.Forall₂
        (fun st t =>
          t = (scanToken st).1 ∧ st.text = input.data ∧
          (t.line, t.col) = posAt input.data st.pos ∧
          (t.type ≠ TokType.eof → ∃ c, cur st = some c))
        (scanStates (input.data.length + 1)
          { text := input.data, pos := 0, line := 1, col := 1 })
        (tokenize input) := by
  unfold tokenize
  obtain ⟨hF, hC⟩ := tokenizeAux_mono (input.data.length + 1)
    { text := input.data, pos := 0, line := 1, col := 1 }
  have hcol := tokenizeAux_colpos (input.data.length + 1)
    { text := input.data, pos := 0, line := 1, col := 1 } (le_refl 1)
  refine ⟨hC, ?_, ?_⟩
  · rw [List.forall_iff_forall_mem] at hF hcol ⊢
    intro t ht
    have h1 := hF t ht
    have h2 := hcol t ht
    unfold pairLE at h1
    dsimp only at h1
    refine ⟨?_, h2⟩
    rcases h1 with h | ⟨h, _⟩ <;> omega
  · exact tokenizeAux_records input.data (input.data.length + 1) _ rfl rfl

/-- C9 counterexample: the rendering collaborator treats a node as selected
whenever only the names agree; two nodes with the same name but different
types are not distinguished, while the comparison the claim describes
(pairing type with name) tells them apart. -/
theorem selection_ignores_type :
    isSelectedFor (some (ASTNode.node "part" [("name", TokValue.vStr "X")] []))
      (ASTNode.node "port" [("name", TokValue.vStr "X")] []) = true ∧
    selectedBySpecPair (ASTNode.node "part" [("name", TokValue.vStr "X")] [])
      (ASTNode.node "port" [("name", TokValue.vStr "X")] []) = false :=
  ⟨rfl, rfl⟩

/-- C9 (amended): the rendering collaborator decides selection by comparing
only properties.name with JavaScript strict equality: a node is treated as
the selected node exactly when its name payload equals the selected node's
name payload, regardless of either node's type (absent names compare as
equal undefined values). -/
theorem selection_by_name_only (sel n : ASTNode) :
    isSelectedFor (some sel) n = true ↔
      lookupProp "name" sel = lookupProp "name" n := by
  unfold isSelectedFor
  simp [Option.bind]

/-- C10: when the accumulated content of a string literal ends with a
backslash as the last character before end of input, the scan loop consumes
the backslash as an escape introducer and appends nothing, so the resulting
STRING token silently omits the trailing backslash. -/
theorem unterminated_trailing_backslash :
    (∀ (q : Char) (s : LexState), q ≠ '\\' → cur s = some '\\' →
        cur (advance s) = none → readStringLoop q s = ("", advance s)) ∧
    tokenize "\"ab\\" =
      [⟨TokType.string, TokValue.vStr "ab", 1, 1⟩,
       ⟨TokType.eof, TokValue.vNull, 1, 5⟩] := by
  refine ⟨?_, rfl⟩
  intro q s hq h h2
  unfold readStringLoop
  obtain ⟨m, hm⟩ : ∃ m, s.text.length - s.pos = m + 1 :=
    ⟨s.text.length - s.pos - 1, by have := cur_some_lt h; omega⟩
  rw [hm, readStrAux, h]
  dsimp only
  rw [if_neg (Ne.symm hq), if_pos rfl, h2]

/-- A concrete scanner state sitting on a trailing backslash that is the
last character of the input. -/
def bsWitState : LexState :=
  { text := ['"', 'a', 'b', '\\'], pos := 3, line := 1, col := 4 }

theorem unterminated_trailing_backslash_witness :
    readStringLoop '"' bsWitState = ("", advance bsWitState) :=
  unterminated_trailing_backslash.1 '"' bsWitState (by decide) rfl rfl
